import Mathlib

/-!
Shallow embedding of the streaming CSV tokenizer in `pkg/tableformat.go`
(`Config`, `NewReader`, `Reader.ReadRecord`, `commitField`, `BytesRead`),
together with theorems settling the spec claims about it.

Bytes are modelled as `Nat`; a `String`/`[]byte` is a `List Nat`.
The underlying byte source is a list of bytes followed by a terminal
signal: end of stream (`io.EOF` in Go) or a sticky I/O error.  Reading a
byte from an exhausted source yields its terminal signal and leaves the
source unchanged, matching a source whose terminal condition persists.
-/

namespace CsvParser

/-- Byte constants used by the tokenizer. -/
def LF : Nat := 10
def CR : Nat := 13
def DQ : Nat := 34
def SP : Nat := 32
def TAB : Nat := 9

/-- `pkg.Config`: the dialect.  `Comment = 0` means comments disabled;
`Null = []` means no null sentinel (Go `""`). -/
structure Config where
  Delimiter : Nat
  Quote : Nat
  TrimLeading : Bool
  Null : List Nat
  Comment : Nat
deriving DecidableEq, Repr

/-- `pkg.DefaultConfig`. -/
def DefaultConfig : Config :=
  { Delimiter := 44, Quote := DQ, TrimLeading := false, Null := [], Comment := 0 }

/-- Terminal signal of the byte source: `io.EOF` or a non-EOF I/O error
(identified by a code `e`). -/
inductive Term where
  | eof : Term
  | ioErr (e : Nat) : Term
deriving DecidableEq, Repr

/-- The buffered byte source: remaining bytes, then the terminal signal. -/
structure Source where
  data : List Nat
  term : Term
deriving DecidableEq, Repr

/-- Outcome of one `ReadRecord` call: a record (list of field values),
end of stream, or an I/O error. -/
inductive ReadOutcome where
  | record (r : List (List Nat)) : ReadOutcome
  | eof : ReadOutcome
  | ioError (e : Nat) : ReadOutcome
deriving DecidableEq, Repr

/-- The mutable state the `ReadRecord` loop works on: the persistent
`Reader` counters/flags plus the per-call `field` buffer and `record`
container (both reset to empty at the start of each call). -/
structure LoopState where
  inQuotes : Bool
  lastCharWasQuote : Bool
  field : List Nat
  record : List (List Nat)
  currentRowNum : Nat
  bytesRead : Nat
deriving DecidableEq, Repr

/-- The string-processing part of `Reader.commitField`: build the field
value from the buffer (`string(buf)` copies), apply `strings.TrimLeft`
of spaces/tabs when `TrimLeading` is set, then null-sentinel
substitution. -/
def commitValue (cfg : Config) (buf : List Nat) : List Nat :=
  let s := if cfg.TrimLeading then buf.dropWhile (fun b => b = SP || b = TAB) else buf
  if cfg.Null ≠ [] ∧ s = cfg.Null then [] else s

/-- `Reader.commitField`: append the finalized value to the record and
reset the field buffer. -/
def commitField (cfg : Config) (st : LoopState) : LoopState :=
  { st with record := st.record ++ [commitValue cfg st.field], field := [] }

/-- The comment-skip inner loop of `ReadRecord`: read bytes until a read
error or a line terminator, merging a CRLF pair into one terminator.
Returns the remaining data.  (None of these reads touches `bytesRead`.) -/
def skipCommentData : List Nat → List Nat
  | [] => []
  | b :: rest =>
    if b = LF then rest
    else if b = CR then
      match rest with
      | b2 :: rest2 => if b2 = LF then rest2 else rest
      | [] => []
    else skipCommentData rest

theorem skipCommentData_length_le (l : List Nat) :
    (skipCommentData l).length ≤ l.length := by
  induction l with
  | nil => exact Nat.le_refl _
  | cons b rest ih =>
    by_cases h1 : b = LF
    · simp [skipCommentData, h1]
    · by_cases h2 : b = CR
      · cases rest with
        | nil => simp [skipCommentData, h1, h2]
        | cons b2 rest2 =>
          by_cases h3 : b2 = LF
          · simp only [skipCommentData, h1, if_false, h2, if_true, h3]
            simp [CR, LF]
            omega
          · simp only [skipCommentData, h1, if_false, h2, if_true, h3]
            simp [CR, LF]
      · calc (skipCommentData (b :: rest)).length
            = (skipCommentData rest).length := by
              simp [skipCommentData, h1, h2]
          _ ≤ rest.length := ih
          _ ≤ (b :: rest).length := Nat.le_succ _

/-- The end-of-record return path of `ReadRecord` (the body of the
`case (b == '\n' || b == '\r') && !cr.inQuotes` switch clause, which is
also the target of the `fallthrough` in the quote clause): merge CRLF,
commit the field, bump the row counter and return the record.  The byte
consumed by the CRLF merge is not counted in `bytesRead`. -/
def endRecord (cfg : Config) (st : LoopState) (b : Nat) (rest : List Nat)
    (t : Term) : ReadOutcome × LoopState × Source :=
  let rest' := if b = CR then
      match rest with
      | b2 :: rest2 => if b2 = LF then rest2 else rest
      | [] => []
    else rest
  let st' := commitField cfg st
  (.record st'.record, { st' with currentRowNum := st'.currentRowNum + 1 },
    ⟨rest', t⟩)

/-- The main loop of `Reader.ReadRecord`, transcribed byte for byte from
the Go source.  The guard order mirrors the Go code: the comment check
precedes the switch; the switch clauses are tried in source order
(delimiter, quote, line terminator, default); the quote clause for a
quote seen outside quotes with a non-empty field buffer falls through
into the line-terminator clause's body (Go `fallthrough` executes the
next clause's body without testing its condition). -/
def readLoop (cfg : Config) (st : LoopState) (src : Source) :
    ReadOutcome × LoopState × Source :=
  match src with
  | ⟨[], .ioErr e⟩ => (.ioError e, st, ⟨[], .ioErr e⟩)
  | ⟨[], .eof⟩ =>
    -- io.EOF: finalize a pending field (endOfField is never set to true
    -- anywhere in the source, so only the buffer and the quote flag count),
    -- then either report EOF or return the last record.
    let st' := if st.field ≠ [] ∨ st.inQuotes then commitField cfg st else st
    if st'.record = [] then (.eof, st', ⟨[], .eof⟩)
    else (.record st'.record,
      { st' with currentRowNum := st'.currentRowNum + 1 }, ⟨[], .eof⟩)
  | ⟨b :: rest, t⟩ =>
    let st := { st with bytesRead := st.bytesRead + 1 }
    if cfg.Comment ≠ 0 ∧ b = cfg.Comment ∧ ¬st.inQuotes ∧ st.field = [] ∧
        st.record = [] then
      readLoop cfg st ⟨skipCommentData rest, t⟩
    else if b = cfg.Delimiter ∧ ¬st.inQuotes then
      readLoop cfg (commitField cfg st) ⟨rest, t⟩
    else if b = cfg.Quote then
      if ¬st.inQuotes then
        if st.field = [] then
          readLoop cfg { st with inQuotes := true } ⟨rest, t⟩
        else
          -- fallthrough: executes the end-of-record clause body
          endRecord cfg st b rest t
      else
        match rest with
        | b2 :: rest2 =>
          if b2 = cfg.Quote then
            -- escaped quote: consume the peeked byte (uncounted), append one
            readLoop cfg { st with field := st.field ++ [cfg.Quote] }
              ⟨rest2, t⟩
          else
            readLoop cfg { st with inQuotes := false, lastCharWasQuote := true }
              ⟨b2 :: rest2, t⟩
        | [] =>
          -- Peek fails at the terminal: closing quote
          readLoop cfg { st with inQuotes := false, lastCharWasQuote := true }
            ⟨[], t⟩
    else if (b = LF ∨ b = CR) ∧ ¬st.inQuotes then
      endRecord cfg st b rest t
    else
      if cfg.TrimLeading ∧ st.field = [] ∧ ¬st.inQuotes ∧ (b = SP ∨ b = TAB)
      then readLoop cfg st ⟨rest, t⟩
      else readLoop cfg
        { st with field := st.field ++ [b], lastCharWasQuote := false } ⟨rest, t⟩
termination_by src.data.length
decreasing_by
  all_goals simp_all
  · exact Nat.lt_succ_of_le (skipCommentData_length_le rest)
  · omega

/-- `pkg.Reader`: the persistent parser state between `ReadRecord` calls. -/
structure Reader where
  cfg : Config
  err : Option Nat
  inQuotes : Bool
  lastCharWasQuote : Bool
  currentRowNum : Nat
  bytesRead : Nat
deriving DecidableEq, Repr

/-- The fresh `Reader` returned by a successful `NewReader`. -/
def initReader (cfg : Config) : Reader :=
  { cfg := cfg, err := none, inQuotes := false, lastCharWasQuote := false,
    currentRowNum := 0, bytesRead := 0 }

/-- `pkg.NewReader`: validate the dialect (delimiter must differ from
quote and from comment — checked before the quote default is applied),
then force the default quote when `Quote` is zero. -/
def NewReader (cfg : Config) : Except (List Nat) Reader :=
  if cfg.Delimiter = cfg.Quote ∨ cfg.Delimiter = cfg.Comment then
    .error [68]  -- "delimiter, quote, and comment must be distinct"
  else
    let cfg' := if cfg.Quote = 0 then { cfg with Quote := DQ } else cfg
    .ok (initReader cfg')

/-- `Reader.ReadRecord`: sticky-error check, per-call reset of the field
buffer and record container, then the main loop; a non-EOF I/O error is
stored in `err` so every later call returns it without reading. -/
def readRecord (r : Reader) (src : Source) :
    ReadOutcome × Reader × Source :=
  match r.err with
  | some e => (.ioError e, r, src)
  | none =>
    let st0 : LoopState :=
      { inQuotes := r.inQuotes, lastCharWasQuote := r.lastCharWasQuote,
        field := [], record := [], currentRowNum := r.currentRowNum,
        bytesRead := r.bytesRead }
    match readLoop r.cfg st0 src with
    | (.ioError e, st, src') =>
      (.ioError e,
        { r with
          err := some e
          inQuotes := st.inQuotes
          lastCharWasQuote := st.lastCharWasQuote
          currentRowNum := st.currentRowNum
          bytesRead := st.bytesRead },
        src')
    | (out, st, src') =>
      (out,
        { r with
          inQuotes := st.inQuotes
          lastCharWasQuote := st.lastCharWasQuote
          currentRowNum := st.currentRowNum
          bytesRead := st.bytesRead },
        src')

/-- `Reader.BytesRead`. -/
def BytesRead (r : Reader) : Nat := r.bytesRead

end CsvParser

namespace CsvParser

/-! ## Claim C1: a quote met outside quotes with a non-empty field buffer

The Go source's comment on this path reads "If we get here, it's just a
normal character" and ends the clause with `fallthrough`.  A Go
`fallthrough` transfers control to the body of the *next* case clause
without evaluating its condition, and the next clause is the
end-of-record clause — so the byte actually terminates the record
instead of being appended.  The theorem below evaluates the embedded
code at the failing input. -/

/-- C1: at input `ab"c\n` (bytes 97 98 34 99 10) with the default
dialect, the bare quote after `ab` ends the record: `ReadRecord` returns
the record `["ab"]`, not a record whose first field continues as
`ab"c`. -/
theorem c1_bare_quote_ends_record :
    (readRecord (initReader DefaultConfig) ⟨[97, 98, 34, 99, 10], .eof⟩).1
      = .record [[97, 98]]
    ∧ (readRecord (initReader DefaultConfig) ⟨[97, 98, 34, 99, 10], .eof⟩).1
      ≠ .record [[97, 98, 34, 99]] := by
  have h : (readRecord (initReader DefaultConfig)
      ⟨[97, 98, 34, 99, 10], .eof⟩).1 = .record [[97, 98]] := by
    simp [readRecord, readLoop, initReader, DefaultConfig, commitField,
      commitValue, endRecord, skipCommentData, LF, CR, DQ, SP, TAB]
  refine ⟨h, ?_⟩
  rw [h]
  decide

/-! ## Claim C7: construction-time dialect validation -/

/-- C7: `NewReader` fails (with the configuration error, producing no
`Reader`) exactly when the delimiter equals the quote character or the
delimiter equals the comment character; the check happens in
`NewReader` itself, before any parsing. -/
theorem c7_config_rejection (cfg : Config) :
    (∃ msg, NewReader cfg = .error msg) ↔
      cfg.Delimiter = cfg.Quote ∨ cfg.Delimiter = cfg.Comment := by
  by_cases h : cfg.Delimiter = cfg.Quote ∨ cfg.Delimiter = cfg.Comment
  · simp [NewReader, h]
  · simp [NewReader, h]

/-! ## Claim C8: a zero quote character is forced back to the default -/

/-- C8: when the configured quote character is zero (disabled) and the
delimiter collides with neither the (zero) quote nor the comment
character, `NewReader` succeeds and the `Reader` it builds carries the
configuration with `Quote` replaced by the default quote `"` (byte 34);
since `readRecord` is a function of the `Reader` alone, the constructed
reader parses exactly as if `Quote` had been `"`. -/
theorem c8_zero_quote_forced_to_default (cfg : Config)
    (h0 : cfg.Quote = 0) (hd : cfg.Delimiter ≠ cfg.Quote)
    (hc : cfg.Delimiter ≠ cfg.Comment) :
    NewReader cfg = .ok (initReader { cfg with Quote := DQ })
    ∧ ∀ src : Source,
      (NewReader cfg).map (fun r => readRecord r src)
        = .ok (readRecord (initReader { cfg with Quote := DQ }) src) := by
  have hd0 : cfg.Delimiter ≠ 0 := h0 ▸ hd
  constructor
  · simp [NewReader, h0, hd0, hc]
  · intro src
    simp [NewReader, h0, hd0, hc, Except.map]

/-- C8 witness: the default dialect with its quote zeroed out is
accepted and yields the reader of the default dialect itself. -/
theorem c8_zero_quote_witness :
    NewReader { DefaultConfig with Quote := 0 }
      = .ok (initReader { { DefaultConfig with Quote := 0 } with Quote := DQ })
    := (c8_zero_quote_forced_to_default { DefaultConfig with Quote := 0 }
      rfl (by decide) (by decide)).1

/-! ## Claim C4: non-EOF I/O errors are sticky -/

/-- C4: a non-EOF I/O error surfaced by the byte source is returned by
the `ReadRecord` call in which it occurs and is stored in the reader's
`err` field; every later call returns the same stored error immediately,
consuming nothing from the source. -/
theorem c4_ioerror_sticky :
    (∀ (cfg : Config) (st : LoopState) (e : Nat),
      readLoop cfg st ⟨[], .ioErr e⟩ = (.ioError e, st, ⟨[], .ioErr e⟩))
    ∧ (∀ (r : Reader) (e : Nat), r.err = none →
      readRecord r ⟨[], .ioErr e⟩
        = (.ioError e, { r with err := some e }, ⟨[], .ioErr e⟩))
    ∧ (∀ (r : Reader) (src : Source) (e : Nat), r.err = some e →
      readRecord r src = (.ioError e, r, src)) := by
  refine ⟨?_, ?_, ?_⟩
  · intro cfg st e
    simp [readLoop]
  · intro r e h
    simp [readRecord, h, readLoop]
  · intro r src e h
    simp [readRecord, h]

/-- C4 witness: a source that fails at once with error code 7 makes the
first call return error 7 and store it, and a reader whose stored error
is 7 keeps answering error 7 without touching a fresh source. -/
theorem c4_ioerror_sticky_witness :
    readRecord (initReader DefaultConfig) ⟨[], .ioErr 7⟩
      = (.ioError 7, { initReader DefaultConfig with err := some 7 },
        ⟨[], .ioErr 7⟩)
    ∧ readRecord { initReader DefaultConfig with err := some 7 }
        ⟨[97, 98], .eof⟩
      = (.ioError 7, { initReader DefaultConfig with err := some 7 },
        ⟨[97, 98], .eof⟩) :=
  ⟨c4_ioerror_sticky.2.1 (initReader DefaultConfig) 7 rfl,
   c4_ioerror_sticky.2.2 { initReader DefaultConfig with err := some 7 }
     ⟨[97, 98], .eof⟩ 7 rfl⟩

end CsvParser

namespace CsvParser

/-! ## Claim C3: end-of-stream with pending content yields a last record -/

/-- C3: when the source reports end of stream, the loop finalizes
pending content (non-empty field buffer, or mid-quote, or fields already
committed to the current record) as one last, possibly unterminated,
record and returns it; the `io.EOF` outcome is produced exactly when no
pending content remains.  At the `ReadRecord` call level (field and
record are reset on entry), a call on an exhausted source returns EOF
iff the reader is not mid-quote. -/
theorem c3_eof_pending_finalized (cfg : Config) (st : LoopState) :
    ((readLoop cfg st ⟨[], .eof⟩).1 = .eof ↔
        st.field = [] ∧ st.inQuotes = false ∧ st.record = [])
    ∧ (st.field ≠ [] ∨ st.inQuotes = true ∨ st.record ≠ [] →
        (readLoop cfg st ⟨[], .eof⟩).1 =
          .record (if st.field = [] ∧ st.inQuotes = false then st.record
            else st.record ++ [commitValue cfg st.field]))
    ∧ (∀ r : Reader, r.err = none →
        ((readRecord r ⟨[], .eof⟩).1 = .eof ↔ r.inQuotes = false)) := by
  refine ⟨?_, ?_, ?_⟩
  · cases hq : st.inQuotes <;> by_cases hf : st.field = [] <;>
      by_cases hr : st.record = [] <;>
      simp [readLoop, commitField, hq, hf, hr]
  · intro hpend
    cases hq : st.inQuotes <;> by_cases hf : st.field = [] <;>
      by_cases hr : st.record = [] <;>
      simp_all [readLoop, commitField]
  · intro r herr
    cases hq : r.inQuotes <;>
      simp [readRecord, herr, readLoop, hq, commitField]

/-- C3 witness: with a pending one-byte field and nothing else, end of
stream returns the single-field record rather than EOF. -/
theorem c3_eof_pending_witness :
    (readLoop DefaultConfig ⟨false, false, [97], [], 0, 0⟩ ⟨[], .eof⟩).1
      = .record [[97]] := by
  have h := (c3_eof_pending_finalized DefaultConfig
    ⟨false, false, [97], [], 0, 0⟩).2.1 (Or.inl (by decide))
  rw [h]
  decide

/-! ## Claim C2: what TrimLeading removes -/

/-- C2 counterexample: with TrimLeading enabled, the quoted input `" x"`
(bytes 34 32 120 34) finalizes to the field `x`, not `: x` — the leading
space that sat inside the quotes is removed by the unconditional
`strings.TrimLeft` in `commitField`, contradicting the claim that
whitespace inside a quoted field is preserved. -/
theorem c2_quoted_leading_space_trimmed :
    (readRecord (initReader { DefaultConfig with TrimLeading := true })
        ⟨[34, 32, 120, 34], .eof⟩).1 = .record [[120]]
    ∧ (readRecord (initReader { DefaultConfig with TrimLeading := true })
        ⟨[34, 32, 120, 34], .eof⟩).1 ≠ .record [[32, 120]] := by
  have h : (readRecord (initReader { DefaultConfig with TrimLeading := true })
      ⟨[34, 32, 120, 34], .eof⟩).1 = .record [[120]] := by
    simp [readRecord, readLoop, initReader, DefaultConfig, commitField,
      commitValue, endRecord, skipCommentData, LF, CR, DQ, SP, TAB]
  exact ⟨h, by rw [h]; decide⟩

/-- C2 (amended): with TrimLeading enabled (and no null sentinel), a
finalized field value is exactly the accumulated buffer with its leading
run of spaces/tabs dropped — so trailing and internal whitespace is
preserved, but leading whitespace is removed from every field,
including whitespace that came from inside quotes; moreover any byte
read while inside quotes (other than the quote character itself) is
appended verbatim to the buffer, never skipped. -/
theorem c2_trim_removes_only_leading (cfg : Config)
    (hT : cfg.TrimLeading = true) (hN : cfg.Null = []) :
    (∀ buf : List Nat,
        commitValue cfg buf = buf.dropWhile (fun b => b = SP || b = TAB))
    ∧ (∀ (st : LoopState) (b : Nat) (rest : List Nat) (t : Term),
        st.inQuotes = true → b ≠ cfg.Quote →
        readLoop cfg st ⟨b :: rest, t⟩ =
          readLoop cfg
            { st with
              field := st.field ++ [b]
              lastCharWasQuote := false
              bytesRead := st.bytesRead + 1 } ⟨rest, t⟩) := by
  constructor
  · intro buf
    simp [commitValue, hT, hN]
  · intro st b rest t hq hb
    conv_lhs => rw [readLoop.eq_def]
    simp [hq, hb]

/-- C2 witness: finalizing the buffer `: a b:` (space a space b space)
under a trimming dialect keeps the internal and trailing spaces and
drops only the leading one. -/
theorem c2_trim_witness :
    commitValue { DefaultConfig with TrimLeading := true }
        [32, 97, 32, 98, 32] = [97, 32, 98, 32] := by
  have h := (c2_trim_removes_only_leading
    { DefaultConfig with TrimLeading := true } rfl rfl).1 [32, 97, 32, 98, 32]
  rw [h]
  decide

end CsvParser

namespace CsvParser

/-! ## Claim C6: where a comment character is recognized -/

/-- The comment-line discard rule as the spec words it, for comparison
with the code's `skipCommentData`: discard every byte up to the next
line terminator and the terminator itself, merging a CRLF pair into a
single terminator. -/
def commentSkipSpec (l : List Nat) : List Nat :=
  match l.dropWhile (fun b => ¬(b = LF ∨ b = CR)) with
  | [] => []
  | b :: rest =>
    if b = CR then
      match rest with
      | b2 :: rest2 => if b2 = LF then rest2 else rest
      | [] => []
    else rest

theorem skipCommentData_eq_spec (l : List Nat) :
    skipCommentData l = commentSkipSpec l := by
  induction l with
  | nil => rfl
  | cons b rest ih =>
    by_cases h1 : b = LF
    · simp [skipCommentData, commentSkipSpec, List.dropWhile_cons, h1, LF, CR]
    · by_cases h2 : b = CR
      · simp [skipCommentData, commentSkipSpec, List.dropWhile_cons, h1, h2,
          LF, CR]
      · have h3 : commentSkipSpec (b :: rest) = commentSkipSpec rest := by
          simp [commentSkipSpec, List.dropWhile_cons, h1, h2]
        simp [skipCommentData, h1, h2, h3, ih]

end CsvParser

namespace CsvParser

/-- C6: with a comment character enabled (nonzero) that collides with
none of the quote, the delimiter, the line-terminator bytes, or — when
trimming is on — space/tab, a byte equal to the comment character starts
a comment (discarding the rest of the line, CRLF merged, via
`skipCommentData`) exactly when the tokenizer is not inside quotes, the
field buffer is empty and the record has no committed fields; in every
other position it is appended to the field as literal content.  The
second conjunct checks the code's skip loop against the spec's wording
of the discard rule. -/
theorem c6_comment_only_at_record_start (cfg : Config) (st : LoopState)
    (b : Nat) (rest : List Nat) (t : Term)
    (hb : b = cfg.Comment) (h0 : cfg.Comment ≠ 0)
    (hq : cfg.Comment ≠ cfg.Quote) (hd : cfg.Comment ≠ cfg.Delimiter)
    (hlf : cfg.Comment ≠ LF) (hcr : cfg.Comment ≠ CR)
    (hws : cfg.TrimLeading = true → cfg.Comment ≠ SP ∧ cfg.Comment ≠ TAB) :
    (readLoop cfg st ⟨b :: rest, t⟩ =
      if st.inQuotes = false ∧ st.field = [] ∧ st.record = [] then
        readLoop cfg { st with bytesRead := st.bytesRead + 1 }
          ⟨skipCommentData rest, t⟩
      else
        readLoop cfg
          { st with
            field := st.field ++ [b]
            lastCharWasQuote := false
            bytesRead := st.bytesRead + 1 } ⟨rest, t⟩)
    ∧ ∀ l : List Nat, skipCommentData l = commentSkipSpec l := by
  subst hb
  refine ⟨?_, skipCommentData_eq_spec⟩
  conv_lhs => rw [readLoop.eq_def]
  by_cases hcond : st.inQuotes = false ∧ st.field = [] ∧ st.record = []
  · obtain ⟨h1, h2, h3⟩ := hcond
    simp [h0, h1, h2, h3]
  · rw [if_neg hcond]
    have h1 : ¬(¬(st.inQuotes = true) ∧ st.field = [] ∧ st.record = []) := by
      intro h
      exact hcond ⟨by simpa using h.1, h.2.1, h.2.2⟩
    have hd' : cfg.Comment ≠ cfg.Delimiter := hd
    cases hT : cfg.TrimLeading
    · simp [h0, h1, hd', hq, hlf, hcr, hT]
      intro ha hb' hc'
      exact absurd ⟨ha, hb', hc'⟩ hcond
    · obtain ⟨hsp, htab⟩ := hws hT
      simp [h0, h1, hd', hq, hlf, hcr, hT, hsp, htab]
      intro ha hb' hc'
      exact absurd ⟨ha, hb', hc'⟩ hcond

/-- C6 witness: with comment character `#` (35), the line `#x` is
skipped and the following byte `a` becomes the only field of the next
record. -/
theorem c6_comment_witness :
    (readLoop { DefaultConfig with Comment := 35 } ⟨false, false, [], [], 0, 0⟩
        ⟨[35, 120, 10, 97], .eof⟩).1 = .record [[97]] := by
  have h := (c6_comment_only_at_record_start { DefaultConfig with Comment := 35 }
    ⟨false, false, [], [], 0, 0⟩ 35 [120, 10, 97] .eof rfl (by decide)
    (by decide) (by decide) (by decide) (by decide) (by decide)).1
  rw [h]
  simp [readLoop, skipCommentData, commitField, commitValue, endRecord,
    DefaultConfig, LF, CR, DQ, SP, TAB]

end CsvParser

namespace CsvParser

theorem readLoop_nil (cfg : Config) (st : LoopState) (t : Term) :
    (readLoop cfg st ⟨[], t⟩).2.1.bytesRead = st.bytesRead ∧
    (readLoop cfg st ⟨[], t⟩).2.2.data = [] := by
  cases t with
  | ioErr e => simp [readLoop]
  | eof =>
    by_cases h1 : st.field ≠ [] ∨ st.inQuotes = true
    · simp [readLoop, h1, commitField]
    · by_cases h2 : st.record = []
      · simp [readLoop, h1, h2]
      · simp [readLoop, h1, h2]

end CsvParser

namespace CsvParser

theorem endRecord_facts (cfg : Config) (st : LoopState) (b : Nat)
    (rest : List Nat) (t : Term) :
    (endRecord cfg st b rest t).2.1.bytesRead = st.bytesRead ∧
    (endRecord cfg st b rest t).2.2.data.length ≤ rest.length := by
  refine ⟨rfl, ?_⟩
  by_cases hb : b = CR
  · simp only [endRecord, hb, if_pos rfl]
    cases rest with
    | nil => simp
    | cons b2 rest2 =>
      by_cases h2 : b2 = LF
      · simp [h2]
      · simp [h2]
  · simp [endRecord, hb]

/-- C9 (amended): `bytesRead` counts exactly the bytes read at the top
of the main loop, so across any run it can only fall short of the bytes
actually consumed from the source: the loop never increments `bytesRead`
by more than it consumes, while the bytes consumed by CRLF merging,
escaped-quote handling and comment skipping go uncounted.  Stated
additively for the loop and for a whole `ReadRecord` call. -/
theorem c9_bytesread_at_most_consumed :
    (∀ (cfg : Config) (st : LoopState) (src : Source),
      (readLoop cfg st src).2.1.bytesRead
          + (readLoop cfg st src).2.2.data.length
        ≤ st.bytesRead + src.data.length)
    ∧ ∀ (r : Reader) (src : Source),
      BytesRead (readRecord r src).2.1 + (readRecord r src).2.2.data.length
        ≤ BytesRead r + src.data.length := by
  have main : ∀ (cfg : Config) (st : LoopState) (src : Source),
      (readLoop cfg st src).2.1.bytesRead
          + (readLoop cfg st src).2.2.data.length
        ≤ st.bytesRead + src.data.length := by
    intro cfg st src
    induction st, src using readLoop.induct cfg with
    | case1 st e =>
      rw [(readLoop_nil cfg st (.ioErr e)).1, (readLoop_nil cfg st (.ioErr e)).2]
    | case2 st h =>
      rw [(readLoop_nil cfg st .eof).1, (readLoop_nil cfg st .eof).2]
    | case3 st h =>
      rw [(readLoop_nil cfg st .eof).1, (readLoop_nil cfg st .eof).2]
    | case4 st b rest t st2 h ih =>
      have hg : cfg.Comment ≠ 0 ∧ b = cfg.Comment ∧ ¬st.inQuotes = true ∧
          st.field = [] ∧ st.record = [] := h
      have ih' : (readLoop cfg { st with bytesRead := st.bytesRead + 1 }
            ⟨skipCommentData rest, t⟩).2.1.bytesRead
          + (readLoop cfg { st with bytesRead := st.bytesRead + 1 }
            ⟨skipCommentData rest, t⟩).2.2.data.length
          ≤ st.bytesRead + 1 + (skipCommentData rest).length := ih
      have hs := skipCommentData_length_le rest
      rw [readLoop.eq_def]
      simp only []
      rw [if_pos hg]
      simp only [List.length_cons]
      omega
    | case5 st b rest t st2 h1 h ih =>
      have h1' : ¬(cfg.Comment ≠ 0 ∧ b = cfg.Comment ∧ ¬st.inQuotes = true ∧
          st.field = [] ∧ st.record = []) := h1
      have h' : b = cfg.Delimiter ∧ ¬st.inQuotes = true := h
      have ih' : (readLoop cfg
            (commitField cfg { st with bytesRead := st.bytesRead + 1 })
            ⟨rest, t⟩).2.1.bytesRead
          + (readLoop cfg
            (commitField cfg { st with bytesRead := st.bytesRead + 1 })
            ⟨rest, t⟩).2.2.data.length
          ≤ st.bytesRead + 1 + rest.length := ih
      rw [readLoop.eq_def]
      simp only []
      rw [if_neg h1', if_pos h']
      simp only [List.length_cons]
      omega
    | case6 st rest t st2 h3 h2 h1 h ih =>
      have h1' : ¬(cfg.Comment ≠ 0 ∧ cfg.Quote = cfg.Comment ∧
          ¬st.inQuotes = true ∧ st.field = [] ∧ st.record = []) := h1
      have h' : ¬(cfg.Quote = cfg.Delimiter ∧ ¬st.inQuotes = true) := h
      have h3' : ¬st.inQuotes = true := h3
      have h2' : st.field = [] := h2
      have ih' : (readLoop cfg
            { st with inQuotes := true, bytesRead := st.bytesRead + 1 }
            ⟨rest, t⟩).2.1.bytesRead
          + (readLoop cfg
            { st with inQuotes := true, bytesRead := st.bytesRead + 1 }
            ⟨rest, t⟩).2.2.data.length
          ≤ st.bytesRead + 1 + rest.length := ih
      rw [readLoop.eq_def]
      simp only []
      rw [if_neg h1', if_neg h']
      simp only [if_true]
      rw [if_pos h3', if_pos h2']
      simp only [List.length_cons]
      omega
    | case7 st rest t st2 h3 h2 h1 h =>
      have h1' : ¬(cfg.Comment ≠ 0 ∧ cfg.Quote = cfg.Comment ∧
          ¬st.inQuotes = true ∧ st.field = [] ∧ st.record = []) := h1
      have h' : ¬(cfg.Quote = cfg.Delimiter ∧ ¬st.inQuotes = true) := h
      have h3' : ¬st.inQuotes = true := h3
      have h2' : ¬st.field = [] := h2
      have hf := endRecord_facts cfg { st with bytesRead := st.bytesRead + 1 }
        cfg.Quote rest t
      have hb2 : (endRecord cfg { st with bytesRead := st.bytesRead + 1 }
          cfg.Quote rest t).2.1.bytesRead = st.bytesRead + 1 := hf.1
      have hdata := hf.2
      rw [readLoop.eq_def]
      simp only []
      rw [if_neg h1', if_neg h']
      simp only [if_true]
      rw [if_pos h3', if_neg h2']
      simp only [List.length_cons]
      omega
    | case8 st t st2 h2 rest2 h1 h ih =>
      have h1' : ¬(cfg.Comment ≠ 0 ∧ cfg.Quote = cfg.Comment ∧
          ¬st.inQuotes = true ∧ st.field = [] ∧ st.record = []) := h1
      have h' : ¬(cfg.Quote = cfg.Delimiter ∧ ¬st.inQuotes = true) := h
      have h2' : ¬¬st.inQuotes = true := h2
      have ih' : (readLoop cfg
            { st with
              field := st.field ++ [cfg.Quote]
              bytesRead := st.bytesRead + 1 } ⟨rest2, t⟩).2.1.bytesRead
          + (readLoop cfg
            { st with
              field := st.field ++ [cfg.Quote]
              bytesRead := st.bytesRead + 1 } ⟨rest2, t⟩).2.2.data.length
          ≤ st.bytesRead + 1 + rest2.length := ih
      rw [readLoop.eq_def]
      simp only []
      rw [if_neg h1', if_neg h']
      simp only [if_true]
      rw [if_neg h2']
      simp only [List.length_cons]
      omega
    | case9 st t st2 h3 b2 rest2 h2 h1 h ih =>
      have h1' : ¬(cfg.Comment ≠ 0 ∧ cfg.Quote = cfg.Comment ∧
          ¬st.inQuotes = true ∧ st.field = [] ∧ st.record = []) := h1
      have h' : ¬(cfg.Quote = cfg.Delimiter ∧ ¬st.inQuotes = true) := h
      have h3' : ¬¬st.inQuotes = true := h3
      have ih' : (readLoop cfg
            { st with
              inQuotes := false
              lastCharWasQuote := true
              bytesRead := st.bytesRead + 1 } ⟨b2 :: rest2, t⟩).2.1.bytesRead
          + (readLoop cfg
            { st with
              inQuotes := false
              lastCharWasQuote := true
              bytesRead := st.bytesRead + 1 } ⟨b2 :: rest2, t⟩).2.2.data.length
          ≤ st.bytesRead + 1 + (rest2.length + 1) := ih
      rw [readLoop.eq_def]
      simp only []
      rw [if_neg h1', if_neg h']
      simp only [if_true]
      rw [if_neg h3', if_neg h2]
      simp only [List.length_cons]
      omega
    | case10 st t st2 h2 h1 h ih =>
      have h1' : ¬(cfg.Comment ≠ 0 ∧ cfg.Quote = cfg.Comment ∧
          ¬st.inQuotes = true ∧ st.field = [] ∧ st.record = []) := h1
      have h' : ¬(cfg.Quote = cfg.Delimiter ∧ ¬st.inQuotes = true) := h
      have h2' : ¬¬st.inQuotes = true := h2
      have ih' : (readLoop cfg
            { st with
              inQuotes := false
              lastCharWasQuote := true
              bytesRead := st.bytesRead + 1 } ⟨[], t⟩).2.1.bytesRead
          + (readLoop cfg
            { st with
              inQuotes := false
              lastCharWasQuote := true
              bytesRead := st.bytesRead + 1 } ⟨[], t⟩).2.2.data.length
          ≤ st.bytesRead + 1 := ih
      rw [readLoop.eq_def]
      simp only []
      rw [if_neg h1', if_neg h']
      simp only [if_true]
      rw [if_neg h2']
      simp only [List.length_cons, List.length_nil]
      omega
    | case11 st b rest t st2 h3 h2 h1 h =>
      have h3' : ¬(cfg.Comment ≠ 0 ∧ b = cfg.Comment ∧ ¬st.inQuotes = true ∧
          st.field = [] ∧ st.record = []) := h3
      have h2' : ¬(b = cfg.Delimiter ∧ ¬st.inQuotes = true) := h2
      have h' : (b = LF ∨ b = CR) ∧ ¬st.inQuotes = true := h
      have hf := endRecord_facts cfg { st with bytesRead := st.bytesRead + 1 }
        b rest t
      have hb2 : (endRecord cfg { st with bytesRead := st.bytesRead + 1 }
          b rest t).2.1.bytesRead = st.bytesRead + 1 := hf.1
      have hdata := hf.2
      rw [readLoop.eq_def]
      simp only []
      rw [if_neg h3', if_neg h2', if_neg h1, if_pos h']
      simp only [List.length_cons]
      omega
    | case12 st b rest t st2 h4 h3 h2 h1 h ih =>
      have h4' : ¬(cfg.Comment ≠ 0 ∧ b = cfg.Comment ∧ ¬st.inQuotes = true ∧
          st.field = [] ∧ st.record = []) := h4
      have h3' : ¬(b = cfg.Delimiter ∧ ¬st.inQuotes = true) := h3
      have h1' : ¬((b = LF ∨ b = CR) ∧ ¬st.inQuotes = true) := h1
      have h' : cfg.TrimLeading = true ∧ st.field = [] ∧ ¬st.inQuotes = true ∧
          (b = SP ∨ b = TAB) := h
      have ih' : (readLoop cfg { st with bytesRead := st.bytesRead + 1 }
            ⟨rest, t⟩).2.1.bytesRead
          + (readLoop cfg { st with bytesRead := st.bytesRead + 1 }
            ⟨rest, t⟩).2.2.data.length
          ≤ st.bytesRead + 1 + rest.length := ih
      rw [readLoop.eq_def]
      simp only []
      rw [if_neg h4', if_neg h3', if_neg h2, if_neg h1', if_pos h']
      simp only [List.length_cons]
      omega
    | case13 st b rest t st2 h4 h3 h2 h1 h ih =>
      have h4' : ¬(cfg.Comment ≠ 0 ∧ b = cfg.Comment ∧ ¬st.inQuotes = true ∧
          st.field = [] ∧ st.record = []) := h4
      have h3' : ¬(b = cfg.Delimiter ∧ ¬st.inQuotes = true) := h3
      have h1' : ¬((b = LF ∨ b = CR) ∧ ¬st.inQuotes = true) := h1
      have h' : ¬(cfg.TrimLeading = true ∧ st.field = [] ∧ ¬st.inQuotes = true ∧
          (b = SP ∨ b = TAB)) := h
      have ih' : (readLoop cfg
            { st with
              lastCharWasQuote := false
              field := st.field ++ [b]
              bytesRead := st.bytesRead + 1 } ⟨rest, t⟩).2.1.bytesRead
          + (readLoop cfg
            { st with
              lastCharWasQuote := false
              field := st.field ++ [b]
              bytesRead := st.bytesRead + 1 } ⟨rest, t⟩).2.2.data.length
          ≤ st.bytesRead + 1 + rest.length := ih
      rw [readLoop.eq_def]
      simp only []
      rw [if_neg h4', if_neg h3', if_neg h2, if_neg h1', if_neg h']
      simp only [List.length_cons]
      omega
  refine ⟨main, ?_⟩
  intro r src
  cases herr : r.err with
  | some e => simp [readRecord, herr, BytesRead]
  | none =>
    have h := main r.cfg
      { inQuotes := r.inQuotes, lastCharWasQuote := r.lastCharWasQuote,
        field := [], record := [], currentRowNum := r.currentRowNum,
        bytesRead := r.bytesRead } src
    rcases hres : readLoop r.cfg
      { inQuotes := r.inQuotes, lastCharWasQuote := r.lastCharWasQuote,
        field := [], record := [], currentRowNum := r.currentRowNum,
        bytesRead := r.bytesRead } src with ⟨out, st', src''⟩
    rw [hres] at h
    simp only [] at h
    cases out <;> simp [readRecord, herr, hres, BytesRead] <;> exact h

end CsvParser

namespace CsvParser

/-- C9 counterexample: parsing `a\r\nb` (bytes 97 13 10 98) with the
default dialect, the first `ReadRecord` call consumes three bytes (the
`\n` of the CRLF pair is consumed by the merge peek, leaving only `b`),
yet `BytesRead` reports 2 — so `BytesRead` does not equal the cumulative
bytes consumed from the source. -/
theorem c9_crlf_merge_not_counted :
    BytesRead (readRecord (initReader DefaultConfig)
        ⟨[97, 13, 10, 98], .eof⟩).2.1 = 2
    ∧ (readRecord (initReader DefaultConfig)
        ⟨[97, 13, 10, 98], .eof⟩).2.2.data = [98]
    ∧ ([97, 13, 10, 98].length : Nat) - ([98] : List Nat).length = 3
    ∧ (2 : Nat) ≠ 3 := by
  refine ⟨?_, ?_, by decide, by decide⟩ <;>
    simp [BytesRead, readRecord, readLoop, initReader, DefaultConfig,
      commitField, commitValue, endRecord, skipCommentData, LF, CR, DQ, SP, TAB]

/-! ## Claim C5: quote-encode / parse round trip -/

/-- Double every occurrence of the quote byte `q` in a field, as the
spec's escaping rule prescribes. -/
def escQuotes (q : Nat) : List Nat → List Nat
  | [] => []
  | c :: cs => if c = q then q :: q :: escQuotes q cs else c :: escQuotes q cs

/-- Encode a field for quoting: wrap in quote bytes, doubling internal
quotes. -/
def encodeField (q : Nat) (s : List Nat) : List Nat :=
  q :: (escQuotes q s ++ [q])

theorem readLoop_quoted (cfg : Config) (s : List Nat) :
    ∀ st : LoopState, st.inQuotes = true →
      readLoop cfg st ⟨escQuotes cfg.Quote s ++ [cfg.Quote], .eof⟩ =
        readLoop cfg
          { st with
            inQuotes := false
            lastCharWasQuote := true
            field := st.field ++ s
            bytesRead := st.bytesRead + s.length + 1 }
          ⟨[], .eof⟩ := by
  induction s with
  | nil =>
    intro st hq
    conv_lhs => rw [readLoop.eq_def]
    simp [escQuotes, hq]
  | cons c cs ih =>
    intro st hq
    by_cases hc : c = cfg.Quote
    · subst hc
      conv_lhs => rw [readLoop.eq_def]
      simp [escQuotes, hq]
      rw [ih _ rfl]
      congr 1
      simp [List.append_assoc]
      omega
    · conv_lhs => rw [readLoop.eq_def]
      simp [escQuotes, hq, hc]
      rw [ih _ rfl]
      congr 1
      simp [List.append_assoc]
      omega

end CsvParser

namespace CsvParser

/-- C5 counterexample: the empty field's encoded form `""` fed alone to
`ReadRecord` yields end-of-stream, not a record holding the empty field:
both quote bytes are consumed as quote-entry and quote-exit, leaving no
pending content at EOF. -/
theorem c5_empty_field_roundtrip_fails :
    (readRecord (initReader DefaultConfig) ⟨encodeField DQ [], .eof⟩).1 = .eof
    ∧ (readRecord (initReader DefaultConfig) ⟨encodeField DQ [], .eof⟩).1
      ≠ .record [[]] := by
  have h : (readRecord (initReader DefaultConfig)
      ⟨encodeField DQ [], .eof⟩).1 = .eof := by
    simp [readRecord, readLoop, initReader, DefaultConfig, encodeField,
      escQuotes, commitField, commitValue, endRecord, skipCommentData,
      LF, CR, DQ, SP, TAB]
  exact ⟨h, by rw [h]; decide⟩

/-- C5 (amended): for every NON-EMPTY field (any bytes, including the
delimiter, the quote and newlines) and any dialect with distinct
delimiter and quote, trimming off, no null sentinel and comments
disabled, wrapping the field in quotes with internal quotes doubled and
feeding the result through `ReadRecord` reproduces the field exactly —
in particular each doubled quote decodes to one literal quote.  (The
empty field is the sole exception, see the counterexample.) -/
theorem c5_quote_roundtrip (d q : Nat) (s : List Nat)
    (hdq : q ≠ d) (hs : s ≠ []) :
    (readRecord (initReader ⟨d, q, false, [], 0⟩)
        ⟨encodeField q s, .eof⟩).1 = .record [s] := by
  have h1 : readLoop ⟨d, q, false, [], 0⟩
      { inQuotes := false, lastCharWasQuote := false, field := [],
        record := [], currentRowNum := 0, bytesRead := 0 }
      ⟨encodeField q s, .eof⟩
      = readLoop ⟨d, q, false, [], 0⟩
        { inQuotes := true, lastCharWasQuote := false, field := [],
          record := [], currentRowNum := 0, bytesRead := 1 }
        ⟨escQuotes q s ++ [q], .eof⟩ := by
    conv_lhs => rw [readLoop.eq_def]
    simp [encodeField, hdq]
  have h2 := readLoop_quoted ⟨d, q, false, [], 0⟩ s
    { inQuotes := true, lastCharWasQuote := false, field := [],
      record := [], currentRowNum := 0, bytesRead := 1 } rfl
  have hall : (readLoop ⟨d, q, false, [], 0⟩
      { inQuotes := false, lastCharWasQuote := false, field := [],
        record := [], currentRowNum := 0, bytesRead := 0 }
      ⟨encodeField q s, .eof⟩).1 = .record [s] := by
    rw [h1, h2]
    conv_lhs => rw [readLoop.eq_def]
    simp [hs, commitField, commitValue]
  rcases hres : readLoop ⟨d, q, false, [], 0⟩
      { inQuotes := false, lastCharWasQuote := false, field := [],
        record := [], currentRowNum := 0, bytesRead := 0 }
      ⟨encodeField q s, .eof⟩ with ⟨out, stf, srcf⟩
  rw [hres] at hall
  simp only [] at hall
  subst hall
  simp [readRecord, initReader, hres]

/-- C5 witness: the field `a",\nb` — containing a quote, the delimiter
and a newline — survives the encode/parse round trip under the default
delimiter and quote. -/
theorem c5_quote_roundtrip_witness :
    (readRecord (initReader ⟨44, 34, false, [], 0⟩)
        ⟨encodeField 34 [97, 34, 10, 44, 98], .eof⟩).1
      = .record [[97, 34, 10, 44, 98]] :=
  c5_quote_roundtrip 44 34 [97, 34, 10, 44, 98] (by decide) (by decide)

end CsvParser
